import Mathlib

/-!
Verification of the Safety Gym environment suite
(alf/environments/suite_safety_gym.py).

The suite consists of three small components applied in a fixed pipeline:
an info-normalizing wrapper (CompleteEnvInfo), a reward vectorizer
(VectorReward), and a loader (load) with a step-limit computation.
Python dicts with string keys are modelled as association lists in
insertion order; numpy float32 scalars are modelled as rationals.
-/

namespace SafetyGymSuite

/-- A value stored in a gym env info dict: a boolean flag or a float scalar
(floats modelled as rationals). -/
inductive Val where
  | bool (b : Bool)
  | num (x : Rat)
  deriving DecidableEq, Repr

/-- Python numeric coercion of an info value (bool coerces to 0 or 1). -/
def Val.toRat : Val → Rat
  | .bool b => if b then 1 else 0
  | .num x => x

/-- A Python dict with string keys, modelled as an association list kept in
insertion order. -/
abbrev Dict := List (String × Val)

/-- The list of keys of a dict, in insertion order. -/
def dictKeys (d : Dict) : List String := d.map Prod.fst

/-- Python dict item lookup (d[k]): the value at key k, if present. -/
def dictGet (k : String) : Dict → Option Val
  | [] => none
  | p :: d => if p.1 = k then some p.2 else dictGet k d

/-- Setting a single key of a Python dict: replaces the value in place when
the key already exists, otherwise appends the new entry at the end. -/
def dictSet (d : Dict) (k : String) (v : Val) : Dict :=
  if (dictGet k d).isSome then
    d.map (fun p => if p.1 = k then (k, v) else p)
  else
    d ++ [(k, v)]

/-- Python dict.update(other): set each entry of other, in order. -/
def dictUpdate (d other : Dict) : Dict :=
  other.foldl (fun acc p => dictSet acc p.1 p.2) d

/-! ### Substring membership (Python `pat in s`) -/

/-- Whether the first character list is an initial segment of the second. -/
def isInitialSegment : List Char → List Char → Bool
  | [], _ => true
  | _ :: _, [] => false
  | a :: as, b :: bs => a = b && isInitialSegment as bs

/-- Python substring membership `pat in s`, on the underlying char lists. -/
def strIn (pat : List Char) : List Char → Bool
  | [] => isInitialSegment pat []
  | c :: rest => isInitialSegment pat (c :: rest) || strIn pat rest

/-! ### CompleteEnvInfo -/

/-- The three env info keys common to all safety gym environments. -/
def base_env_info_keys : List String :=
  ["cost_exception", "goal_met", "cost"]

/-- The seven constraint-cost keys added for level 1 and 2 environments. -/
def constraint_cost_keys : List String :=
  ["cost_vases_contact", "cost_pillars", "cost_buttons",
   "cost_gremlins", "cost_vases_displace", "cost_vases_velocity",
   "cost_hazards"]

/-- CompleteEnvInfo level test: the name is treated as level 0 exactly when
it contains the substring "0-v". -/
def is_level0_env (env_name : String) : Bool :=
  strIn ("0-v".data) env_name.data

/-- The full list of env info keys selected at construction: the three base
keys, plus the seven constraint-cost keys unless the name is level 0. -/
def env_info_keys (env_name : String) : List String :=
  if is_level0_env env_name then base_env_info_keys
  else base_env_info_keys ++ constraint_cost_keys

/-- The precomputed default env info: every key of the class mapped to
float 0, except the goal_met flag which defaults to false. -/
def generate_default_env_info (env_name : String) : Dict :=
  (env_info_keys env_name).map
    (fun key => (key, if key = "goal_met" then Val.bool false else Val.num 0))

/-- The tuple returned by a gym step call: observation, scalar reward, done
flag and info dict. -/
structure StepResult (Obs : Type) where
  obs : Obs
  reward : Rat
  done : Bool
  info : Dict
  deriving DecidableEq, Repr

/-- CompleteEnvInfo.step: overlay the info returned by the underlying step
onto a copy of the precomputed default info; the observation, reward and
done flag pass through unchanged. -/
def CompleteEnvInfo.step {Obs : Type} (env_name : String) (r : StepResult Obs) :
    StepResult Obs :=
  { r with info := dictUpdate (generate_default_env_info env_name) r.info }

/-! ### VectorReward -/

/-- VectorReward.REWARD_DIMENSION. -/
def REWARD_DIMENSION : Nat := 3

/-- The tuple returned by a VectorReward step: observation, reward vector,
done flag and info dict. -/
structure VStepResult (Obs : Type) where
  obs : Obs
  reward : List Rat
  done : Bool
  info : Dict
  deriving DecidableEq, Repr

/-- VectorReward.step: read the aggregate cost and the goal_met flag from
the info dict of the underlying step and return the reward 3-vector
[reward, -cost, float(goal_met)].  A missing key is a fatal lookup error
(Python KeyError), looked up in source order: cost first. -/
def VectorReward.step {Obs : Type} (r : StepResult Obs) :
    Except String (VStepResult Obs) :=
  match dictGet "cost" r.info with
  | none => .error "KeyError: cost"
  | some c =>
    match dictGet "goal_met" r.info with
    | none => .error "KeyError: goal_met"
    | some g =>
      .ok ⟨r.obs, [r.reward, -(Val.toRat c), Val.toRat g], r.done, r.info⟩

/-! ### load -/

/-- The wrapper chain built by load around the base environment. -/
inductive WrappedEnv where
  | base (environment_name : String)
  | completeEnvInfo (inner : WrappedEnv) (env_name : String)
  | vectorReward (inner : WrappedEnv)
  deriving DecidableEq, Repr

/-- The wrapper pipeline of load: always apply CompleteEnvInfo, then apply
VectorReward unless the unconstrained flag is set. -/
def load_pipeline (environment_name : String) (unconstrained : Bool) :
    WrappedEnv :=
  let env := WrappedEnv.base environment_name
  let env := WrappedEnv.completeEnvInfo env environment_name
  if unconstrained then env else WrappedEnv.vectorReward env

/-- Whether the wrapper chain contains a VectorReward wrapper. -/
def hasVectorReward : WrappedEnv → Bool
  | .base _ => false
  | .completeEnvInfo w _ => hasVectorReward w
  | .vectorReward _ => true

/-- The dimension of the reward-space descriptor exposed by the wrapper
chain: VectorReward exposes a Box of shape [REWARD_DIMENSION]; other
wrappers delegate to the wrapped environment; the base safety gym
environment exposes none. -/
def reward_space_dim : WrappedEnv → Option Nat
  | .base _ => none
  | .completeEnvInfo w _ => reward_space_dim w
  | .vectorReward _ => some REWARD_DIMENSION

/-- The step-limit computation of load: a falsy caller limit (absent or
zero) is replaced by num_steps - 1, then the result is capped at
num_steps - 1. -/
def load_max_episode_steps (num_steps : Int) (max_episode_steps : Option Int) :
    Int :=
  let m : Int :=
    match max_episode_steps with
    | none => num_steps - 1
    | some l => if l = 0 then num_steps - 1 else l
  min (num_steps - 1) m

/-! ### Module import and availability check -/

/-- The module-level conditional import: a single try block imports both
libraries, and the except clause resets both names to None, so both are
None whenever either import fails. -/
def module_imports (mujoco_importable safety_gym_importable : Bool) :
    Option Unit × Option Unit :=
  if mujoco_importable && safety_gym_importable then (some (), some ())
  else (none, none)

/-- is_available: both imported module handles are non-None. -/
def is_available (mujoco_py safety_gym : Option Unit) : Bool :=
  mujoco_py.isSome && safety_gym.isSome

/-! ### Dict lemmas -/

theorem dictKeys_cons (p : String × Val) (d : Dict) :
    dictKeys (p :: d) = p.1 :: dictKeys d := rfl

theorem dictGet_isSome_iff_mem {k : String} {d : Dict} :
    (dictGet k d).isSome = true ↔ k ∈ dictKeys d := by
  induction d with
  | nil => simp [dictGet, dictKeys]
  | cons p d ih =>
    by_cases h : p.1 = k
    · simp [dictGet, dictKeys_cons, List.mem_cons, h]
    · have hk : ¬k = p.1 := fun hh => h hh.symm
      simp [dictGet, dictKeys_cons, List.mem_cons, h, hk, ih]

theorem dictGet_eq_none_iff_not_mem {k : String} {d : Dict} :
    dictGet k d = none ↔ k ∉ dictKeys d := by
  rw [← dictGet_isSome_iff_mem]
  cases dictGet k d <;> simp

theorem dictGet_mapReplace (d : Dict) (k : String) (v : Val) (j : String) :
    dictGet j (d.map fun p => if p.1 = k then (k, v) else p) =
      if j = k then (dictGet k d).map (fun _ => v) else dictGet j d := by
  induction d with
  | nil => simp [dictGet]
  | cons p d ih =>
    obtain ⟨a, b⟩ := p
    by_cases hp : a = k
    · subst hp
      by_cases hj : j = a
      · subst hj; simp [dictGet, ih]
      · have haj : ¬a = j := fun hh => hj hh.symm
        simp [dictGet, hj, haj, ih]
    · by_cases hj : j = k
      · subst hj
        simp [dictGet, hp, ih]
      · by_cases haj : a = j
        · simp [dictGet, hp, haj, hj]
        · simp [dictGet, hp, haj, hj, ih]

theorem dictGet_append (d₁ d₂ : Dict) (j : String) :
    dictGet j (d₁ ++ d₂) =
      (match dictGet j d₁ with
       | some v => some v
       | none => dictGet j d₂) := by
  induction d₁ with
  | nil => simp [dictGet]
  | cons p d ih =>
    by_cases hj : p.1 = j <;> simp [dictGet, hj, ih]

theorem dictGet_dictSet (d : Dict) (k : String) (v : Val) (j : String) :
    dictGet j (dictSet d k v) = if j = k then some v else dictGet j d := by
  unfold dictSet
  cases hk : dictGet k d with
  | some w => simp [hk, dictGet_mapReplace]
  | none =>
    rw [if_neg (by simp [hk])]
    rw [dictGet_append]
    by_cases hj : j = k
    · subst hj; rw [hk]; simp [dictGet]
    · have hkj : ¬k = j := fun hh => hj hh.symm
      cases hjd : dictGet j d <;> simp [hjd, dictGet, hkj, hj]

theorem dictKeys_dictSet_of_mem {d : Dict} {k : String} (v : Val)
    (h : k ∈ dictKeys d) : dictKeys (dictSet d k v) = dictKeys d := by
  have hs : (dictGet k d).isSome = true := dictGet_isSome_iff_mem.mpr h
  unfold dictSet
  rw [if_pos hs]
  unfold dictKeys
  rw [List.map_map]
  refine List.map_congr_left ?_
  intro p _
  by_cases hp : p.1 = k <;> simp [hp]

theorem dictUpdate_nil (d : Dict) : dictUpdate d [] = d := rfl

theorem dictUpdate_cons (d : Dict) (p : String × Val) (other : Dict) :
    dictUpdate d (p :: other) = dictUpdate (dictSet d p.1 p.2) other := rfl

theorem dictKeys_dictUpdate_of_subset {other d : Dict}
    (h : ∀ k ∈ dictKeys other, k ∈ dictKeys d) :
    dictKeys (dictUpdate d other) = dictKeys d := by
  induction other generalizing d with
  | nil => rfl
  | cons p other ih =>
    have hp : p.1 ∈ dictKeys d := h p.1 (by simp [dictKeys])
    have hkeys : dictKeys (dictSet d p.1 p.2) = dictKeys d :=
      dictKeys_dictSet_of_mem p.2 hp
    rw [dictUpdate_cons, ih, hkeys]
    intro k hk
    rw [hkeys]
    exact h k (by simp [dictKeys]; right; simpa [dictKeys] using hk)

theorem dictGet_dictUpdate_of_not_mem {other : Dict} {k : String} (d : Dict)
    (h : k ∉ dictKeys other) :
    dictGet k (dictUpdate d other) = dictGet k d := by
  induction other generalizing d with
  | nil => rfl
  | cons p other ih =>
    simp only [dictKeys, List.map_cons, List.mem_cons, not_or] at h
    rw [dictUpdate_cons, ih _ (by simpa [dictKeys] using h.2), dictGet_dictSet]
    rw [if_neg h.1]

theorem dictGet_dictUpdate_of_nodup_mem {other : Dict} {k : String} (d : Dict)
    (hnd : (dictKeys other).Nodup) (h : k ∈ dictKeys other) :
    dictGet k (dictUpdate d other) = dictGet k other := by
  induction other generalizing d with
  | nil => simp [dictKeys] at h
  | cons p other ih =>
    simp only [dictKeys, List.map_cons, List.nodup_cons] at hnd
    by_cases hk : k = p.1
    · have hnot : k ∉ dictKeys other := hk ▸ hnd.1
      rw [dictUpdate_cons, dictGet_dictUpdate_of_not_mem _ hnot,
        dictGet_dictSet, if_pos hk]
      simp [dictGet, hk.symm]
    · have hmem : k ∈ dictKeys other := by
        simp only [dictKeys, List.map_cons, List.mem_cons] at h
        exact h.resolve_left hk
      rw [dictUpdate_cons, ih _ hnd.2 hmem]
      have hpk : ¬p.1 = k := fun hh => hk hh.symm
      simp [dictGet, hpk]

theorem dictGet_map_self {l : List String} {k : String} (f : String → Val)
    (h : k ∈ l) :
    dictGet k (l.map fun key => (key, f key)) = some (f k) := by
  induction l with
  | nil => simp at h
  | cons a l ih =>
    by_cases ha : a = k
    · subst ha; simp [dictGet]
    · have : k ∈ l := (List.mem_cons.mp h).resolve_left (fun hh => ha hh.symm)
      simp [dictGet, ha, ih this]

theorem dictKeys_generate_default (env_name : String) :
    dictKeys (generate_default_env_info env_name) = env_info_keys env_name := by
  simp [dictKeys, generate_default_env_info, List.map_map, Function.comp_def]

theorem dictGet_generate_default {env_name k : String}
    (h : k ∈ env_info_keys env_name) :
    dictGet k (generate_default_env_info env_name) =
      some (if k = "goal_met" then Val.bool false else Val.num 0) :=
  dictGet_map_self _ h

theorem env_info_keys_length (env_name : String) :
    (env_info_keys env_name).length =
      (if is_level0_env env_name then 3 else 10) := by
  unfold env_info_keys
  by_cases h : is_level0_env env_name <;> simp [h] <;> rfl

/-! ### Substring lemmas -/

theorem isInitialSegment_iff {pat : List Char} :
    ∀ {l : List Char},
      isInitialSegment pat l = true ↔ ∃ t, l = pat ++ t := by
  induction pat with
  | nil => intro l; simp [isInitialSegment]
  | cons a pat ih =>
    intro l
    cases l with
    | nil => simp [isInitialSegment]
    | cons b l =>
      simp only [isInitialSegment, Bool.and_eq_true, decide_eq_true_eq, ih,
        List.cons_append, List.cons.injEq]
      constructor
      · rintro ⟨rfl, t, rfl⟩; exact ⟨t, rfl, rfl⟩
      · rintro ⟨t, rfl, rfl⟩; exact ⟨rfl, t, rfl⟩

theorem strIn_iff {pat : List Char} :
    ∀ {l : List Char}, strIn pat l = true ↔ ∃ s t, l = s ++ pat ++ t := by
  intro l
  induction l with
  | nil =>
    simp only [strIn, isInitialSegment_iff]
    constructor
    · rintro ⟨t, ht⟩
      exact ⟨[], t, by simpa using ht⟩
    · rintro ⟨s, t, ht⟩
      have h0 : (s ++ pat) ++ t = [] := ht.symm
      have h1 := List.append_eq_nil.mp h0
      have h2 := List.append_eq_nil.mp h1.1
      exact ⟨[], by simp [h2.2]⟩
  | cons c l ih =>
    simp only [strIn, Bool.or_eq_true, isInitialSegment_iff, ih]
    constructor
    · rintro (⟨t, ht⟩ | ⟨s, t, ht⟩)
      · exact ⟨[], t, by simpa using ht⟩
      · exact ⟨c :: s, t, by simp [ht]⟩
    · rintro ⟨s, t, ht⟩
      cases s with
      | nil => exact Or.inl ⟨t, by simpa using ht⟩
      | cons c0 s =>
        rw [List.cons_append, List.cons_append] at ht
        injection ht with h1 h2
        exact Or.inr ⟨s, t, h2⟩

/-! ### Claim theorems -/

/-- C1: for every environment name and every underlying info dict drawn
from the expected key set, the record returned by CompleteEnvInfo.step has
exactly the expected key set for the level classification of the name:
3 keys for level-0 names and 10 keys otherwise, no matter which subset of
the expected keys the underlying simulator actually reported. -/
theorem complete_env_info_key_set {Obs : Type} (env_name : String)
    (r : StepResult Obs)
    (h : ∀ k ∈ dictKeys r.info, k ∈ env_info_keys env_name) :
    dictKeys (CompleteEnvInfo.step env_name r).info = env_info_keys env_name ∧
    (dictKeys (CompleteEnvInfo.step env_name r).info).length =
      (if is_level0_env env_name then 3 else 10) := by
  have hsub : ∀ k ∈ dictKeys r.info,
      k ∈ dictKeys (generate_default_env_info env_name) := by
    intro k hk
    rw [dictKeys_generate_default]
    exact h k hk
  have hkeys : dictKeys (CompleteEnvInfo.step env_name r).info =
      env_info_keys env_name := by
    show dictKeys (dictUpdate (generate_default_env_info env_name) r.info) =
      env_info_keys env_name
    rw [dictKeys_dictUpdate_of_subset hsub, dictKeys_generate_default]
  exact ⟨hkeys, by rw [hkeys, env_info_keys_length]⟩

theorem complete_env_info_key_set_witness :
    dictKeys (CompleteEnvInfo.step "Safexp-PointGoal1-v0"
        (⟨0, 1, false, [("cost", Val.num 1)]⟩ : StepResult Nat)).info =
      env_info_keys "Safexp-PointGoal1-v0" ∧
    (dictKeys (CompleteEnvInfo.step "Safexp-PointGoal1-v0"
        (⟨0, 1, false, [("cost", Val.num 1)]⟩ : StepResult Nat)).info).length =
      (if is_level0_env "Safexp-PointGoal1-v0" then 3 else 10) :=
  complete_env_info_key_set "Safexp-PointGoal1-v0" _ (by decide)

/-- C4: when the underlying info dict omits an expected key for the level,
the record returned by CompleteEnvInfo.step maps that key to its default:
false for the goal_met flag and float 0 for every other (cost) field. -/
theorem complete_env_info_default_fill {Obs : Type} (env_name k : String)
    (r : StepResult Obs) (hk : k ∈ env_info_keys env_name)
    (hmiss : k ∉ dictKeys r.info) :
    dictGet k (CompleteEnvInfo.step env_name r).info =
      some (if k = "goal_met" then Val.bool false else Val.num 0) := by
  show dictGet k (dictUpdate (generate_default_env_info env_name) r.info) = _
  rw [dictGet_dictUpdate_of_not_mem _ hmiss, dictGet_generate_default hk]

theorem complete_env_info_default_fill_witness :
    dictGet "cost_hazards" (CompleteEnvInfo.step "Safexp-PointGoal1-v0"
        (⟨0, 1, false, [("cost", Val.num 1)]⟩ : StepResult Nat)).info =
      some (if "cost_hazards" = "goal_met" then Val.bool false
        else Val.num 0) :=
  complete_env_info_default_fill "Safexp-PointGoal1-v0" "cost_hazards" _
    (by decide) (by decide)

/-- C6: overlay idempotence: when the underlying info dict (with distinct
keys, as a Python dict has) already reports every expected key, the record
returned by CompleteEnvInfo.step maps each expected key to exactly the
underlying value; no default leaks through. -/
theorem complete_env_info_overlay {Obs : Type} (env_name k : String)
    (r : StepResult Obs) (hnd : (dictKeys r.info).Nodup)
    (hall : ∀ j ∈ env_info_keys env_name, j ∈ dictKeys r.info)
    (hk : k ∈ env_info_keys env_name) :
    dictGet k (CompleteEnvInfo.step env_name r).info = dictGet k r.info := by
  show dictGet k (dictUpdate (generate_default_env_info env_name) r.info) = _
  exact dictGet_dictUpdate_of_nodup_mem _ hnd (hall k hk)

theorem complete_env_info_overlay_witness :
    dictGet "goal_met" (CompleteEnvInfo.step "Safexp-PointGoal0-v0"
        (⟨0, 1, false, [("cost_exception", Val.num 2),
          ("goal_met", Val.bool true),
          ("cost", Val.num 5)]⟩ : StepResult Nat)).info =
      dictGet "goal_met" [("cost_exception", Val.num 2),
        ("goal_met", Val.bool true), ("cost", Val.num 5)] :=
  complete_env_info_overlay "Safexp-PointGoal0-v0" "goal_met" _
    (by decide) (by decide) (by decide)

/-- C8: frame property: CompleteEnvInfo.step returns the observation, the
scalar reward and the done flag of the underlying step unchanged; only the
info record differs. -/
theorem complete_env_info_frame {Obs : Type} (env_name : String)
    (r : StepResult Obs) :
    (CompleteEnvInfo.step env_name r).obs = r.obs ∧
    (CompleteEnvInfo.step env_name r).reward = r.reward ∧
    (CompleteEnvInfo.step env_name r).done = r.done :=
  ⟨rfl, rfl, rfl⟩

/-- C3: when the underlying info dict has cost c and goal_met g,
VectorReward.step succeeds and returns the reward vector
[r, -c, if g then 1 else 0], with observation, done flag and info dict
unchanged. -/
theorem vector_reward_step_eq {Obs : Type} (r : StepResult Obs) (c : Rat)
    (g : Bool) (hc : dictGet "cost" r.info = some (Val.num c))
    (hg : dictGet "goal_met" r.info = some (Val.bool g)) :
    VectorReward.step r =
      .ok ⟨r.obs, [r.reward, -c, if g then 1 else 0], r.done, r.info⟩ := by
  simp [VectorReward.step, hc, hg, Val.toRat]

theorem vector_reward_step_eq_witness :
    VectorReward.step (⟨0, 7, false,
        [("cost", Val.num 1), ("goal_met", Val.bool true)]⟩ : StepResult Nat) =
      .ok ⟨0, [7, -1, if true then 1 else 0], false,
        [("cost", Val.num 1), ("goal_met", Val.bool true)]⟩ :=
  vector_reward_step_eq _ 1 true (by decide) (by decide)

/-- C7: VectorReward.step fails with a lookup error exactly when the
underlying info dict is missing the cost key or the goal_met key; when
both are present no error is raised. -/
theorem vector_reward_missing_key_error_iff {Obs : Type}
    (r : StepResult Obs) :
    (∃ e, VectorReward.step r = .error e) ↔
      (dictGet "cost" r.info = none ∨ dictGet "goal_met" r.info = none) := by
  cases hc : dictGet "cost" r.info with
  | none => simp [VectorReward.step, hc]
  | some c =>
    cases hg : dictGet "goal_met" r.info with
    | none => simp [VectorReward.step, hc, hg]
    | some g => simp [VectorReward.step, hc, hg]

theorem vector_reward_missing_key_error_iff_witness :
    ∃ e, VectorReward.step (⟨0, 1, false, []⟩ : StepResult Nat) = .error e :=
  (vector_reward_missing_key_error_iff _).mpr (Or.inl rfl)

/-- C2: the step limit computed by load equals num_steps - 1 when the
caller limit is None or 0, and min (num_steps - 1) l otherwise; it is
always at most num_steps - 1 and, for a positive caller limit l, at most
l. -/
theorem load_step_limit (N : Int) (L : Option Int) :
    load_max_episode_steps N none = N - 1 ∧
    load_max_episode_steps N (some 0) = N - 1 ∧
    (∀ l : Int, l ≠ 0 → load_max_episode_steps N (some l) = min (N - 1) l) ∧
    load_max_episode_steps N L ≤ N - 1 ∧
    (∀ l : Int, 0 < l → L = some l → load_max_episode_steps N L ≤ l) := by
  refine ⟨by simp [load_max_episode_steps], by simp [load_max_episode_steps],
    fun l hl => by simp [load_max_episode_steps, hl], ?_, ?_⟩
  · cases L with
    | none => simp [load_max_episode_steps]
    | some l => simp [load_max_episode_steps]
  · rintro l hl rfl
    have hl0 : l ≠ 0 := ne_of_gt hl
    simp [load_max_episode_steps, hl0]

theorem load_step_limit_witness :
    load_max_episode_steps 1000 (some 500) = 500 ∧
    load_max_episode_steps 1000 (some 500) ≤ 500 := by
  have h := load_step_limit 1000 (some 500)
  refine ⟨?_, h.2.2.2.2 500 (by decide) rfl⟩
  rw [h.2.2.1 500 (by decide)]
  decide

/-- C5: in unconstrained mode load never applies the VectorReward wrapper:
the wrapper chain is just CompleteEnvInfo over the base environment, it
exposes no reward-space descriptor (in particular none of dimension 3),
and the per-step reward stays the scalar reward of the underlying
environment. -/
theorem load_unconstrained_scalar_reward (environment_name : String) :
    load_pipeline environment_name true =
      WrappedEnv.completeEnvInfo (WrappedEnv.base environment_name)
        environment_name ∧
    hasVectorReward (load_pipeline environment_name true) = false ∧
    reward_space_dim (load_pipeline environment_name true) = none ∧
    ∀ r : StepResult Nat,
      (CompleteEnvInfo.step environment_name r).reward = r.reward :=
  ⟨rfl, rfl, rfl, fun _ => rfl⟩

/-- C9: is_available never raises: given the outcome of the module-level
imports it returns true when both libraries were importable and false
otherwise. -/
theorem is_available_reports_imports (mi si : Bool) :
    is_available (module_imports mi si).1 (module_imports mi si).2 =
      (mi && si) := by
  cases mi <;> cases si <;> rfl

/-- C10: the level classification is exactly substring membership: the key
set selected for a name has 3 keys precisely when the string 0-v occurs
somewhere in the name, and 10 keys precisely when it does not, regardless
of the level the name actually denotes. -/
theorem level0_classification_substring (name : String) :
    ((env_info_keys name).length = 3 ↔
      ∃ s t, name.data = s ++ ("0-v".data) ++ t) ∧
    ((env_info_keys name).length = 10 ↔
      ¬ ∃ s t, name.data = s ++ ("0-v".data) ++ t) := by
  have hiff : is_level0_env name = true ↔
      ∃ s t, name.data = s ++ ("0-v".data) ++ t := strIn_iff
  rw [env_info_keys_length]
  by_cases h : is_level0_env name
  · rw [if_pos h]
    exact ⟨iff_of_true rfl (hiff.mp h),
      iff_of_false (by decide) (fun hnp => hnp (hiff.mp h))⟩
  · have hnp : ¬∃ s t, name.data = s ++ ("0-v".data) ++ t :=
      fun hex => h (hiff.mpr hex)
    rw [if_neg h]
    exact ⟨iff_of_false (by decide) hnp, iff_of_true rfl hnp⟩

theorem level0_classification_substring_witness :
    (env_info_keys "Safexp-PointGoal0-v0").length = 3 :=
  (level0_classification_substring "Safexp-PointGoal0-v0").1.mpr
    ⟨"Safexp-PointGoal".data, "0".data, rfl⟩

end SafetyGymSuite
